import Mathlib

/-!
Shallow embedding of the quantum-tunneling core of the repository
(`src/utils/physics.ts`): the complex-arithmetic helpers, the closed-form
rectangular-barrier solver `solveSchrodinger`, and the time-dependent
wavefunction sampler `getWaveFunctionAt`.  JavaScript numbers are modelled
as real numbers; `Math.sqrt`, `Math.sinh`, `Math.cos`, ... become the
corresponding `Real` functions.
-/

namespace QuantumSim

/-- Embedding of the TS `Complex` record (`physics.ts` line 4):
a pair of real fields `re`, `im`. -/
@[ext]
structure Cx where
  re : ℝ
  im : ℝ

/-- Complex addition (`physics.ts` line 6). -/
def add (a b : Cx) : Cx := ⟨a.re + b.re, a.im + b.im⟩

/-- Complex subtraction (`physics.ts` line 7). -/
def sub (a b : Cx) : Cx := ⟨a.re - b.re, a.im - b.im⟩

/-- Complex multiplication (`physics.ts` line 8). -/
def mul (a b : Cx) : Cx := ⟨a.re * b.re - a.im * b.im, a.re * b.im + a.im * b.re⟩

/-- Complex division with the zero-denominator sentinel
(`physics.ts` lines 9-16): when `b.re^2 + b.im^2 = 0` the result is `0`. -/
noncomputable def div (a b : Cx) : Cx :=
  let denom := b.re * b.re + b.im * b.im
  if denom = 0 then ⟨0, 0⟩
  else ⟨(a.re * b.re + a.im * b.im) / denom, (a.im * b.re - a.re * b.im) / denom⟩

/-- Complex exponential (`physics.ts` lines 17-20); unused by the solver
but part of the arithmetic helper set. -/
noncomputable def cexp (a : Cx) : Cx :=
  ⟨Real.exp a.re * Real.cos a.im, Real.exp a.re * Real.sin a.im⟩

/-- Squared modulus of a `Cx` value, the `|z|^2` of the specification. -/
def normSq (z : Cx) : ℝ := z.re * z.re + z.im * z.im

/-- Modulus of a `Cx` value. -/
noncomputable def modulus (z : Cx) : ℝ := Real.sqrt (normSq z)

/-- The input parameter record (`SimulationParams` from `src/types`,
as consumed by `physics.ts` line 24 / line 128). -/
structure SimulationParams where
  energy : ℝ
  barrierHeight : ℝ
  barrierWidth : ℝ
  mass : ℝ

/-- The solver output record (`WaveCoefficients`, `physics.ts` line 123). -/
structure WaveCoefficients where
  r : Cx
  t : Cx
  c1 : Cx
  c2 : Cx
  k1 : ℝ
  k2 : ℝ
  isTunneling : Bool
  transmissionProb : ℝ

/-- Reduced Planck constant, normalized to 1 (`physics.ts` line 32). -/
def hbar : ℝ := 1

/-- The degeneracy guard of `solveSchrodinger` (`physics.ts` lines 26-29):
the energy actually used by the formulas — `E + 1e-3` when `|E - V0| < 1e-4`,
otherwise `E` unchanged. -/
noncomputable def Epert (E V0 : ℝ) : ℝ :=
  if |E - V0| < 1e-4 then E + 1e-3 else E

/-- The tunneling branch of `solveSchrodinger` (`physics.ts` lines 42-79),
taking the post-guard energy `E` with `E < V0`.  `k1` (line 35) is computed
before the branch in the source; it is reproduced here verbatim. -/
noncomputable def tunnelCoefficients (E V0 L m : ℝ) : WaveCoefficients :=
  let k1 := Real.sqrt (2 * m * E) / hbar
  let kappa := Real.sqrt (2 * m * (V0 - E)) / hbar
  let term := (V0 * V0 * (Real.sinh (kappa * L)) ^ 2) / (4 * E * (V0 - E))
  let T_prob := 1 / (1 + term)
  let kappaL := kappa * L
  let coshKL := Real.cosh kappaL
  let sinhKL := Real.sinh kappaL
  let gamma := (k1 * k1 - kappa * kappa) / (2 * k1 * kappa)
  let D : Cx := ⟨coshKL, -gamma * sinhKL⟩
  let num : Cx := ⟨Real.cos (-k1 * L), Real.sin (-k1 * L)⟩
  let t := div num D
  let gamma_plus := (kappa * kappa + k1 * k1) / (2 * k1 * kappa)
  let r := div ⟨0, gamma_plus * sinhKL⟩ D
  let onePlusR := add ⟨1, 0⟩ r
  let term2 := mul ⟨0, k1 / kappa⟩ (sub ⟨1, 0⟩ r)
  let twoC2 := add onePlusR term2
  let twoC1 := sub onePlusR term2
  { r := r, t := t,
    c1 := ⟨twoC1.re / 2, twoC1.im / 2⟩, c2 := ⟨twoC2.re / 2, twoC2.im / 2⟩,
    k1 := k1, k2 := kappa, isTunneling := true, transmissionProb := T_prob }

/-- The scattering branch of `solveSchrodinger` (`physics.ts` lines 80-121),
taking the post-guard energy `E` with `¬ E < V0`. -/
noncomputable def scatterCoefficients (E V0 L m : ℝ) : WaveCoefficients :=
  let k1 := Real.sqrt (2 * m * E) / hbar
  let k_prime := Real.sqrt (2 * m * (E - V0)) / hbar
  let T_prob :=
    if k_prime = 0 then 0
    else 1 / (1 + (V0 * V0 * (Real.sin (k_prime * L)) ^ 2) / (4 * E * (E - V0)))
  let kL := k_prime * L
  let cosKL := Real.cos kL
  let sinKL := Real.sin kL
  let gamma := (k1 * k1 + k_prime * k_prime) / (2 * k1 * k_prime)
  let D : Cx := ⟨cosKL, -gamma * sinKL⟩
  let num_t : Cx := ⟨Real.cos (-k1 * L), Real.sin (-k1 * L)⟩
  let t := div num_t D
  let gamma_minus := (k1 * k1 - k_prime * k_prime) / (2 * k1 * k_prime)
  let r := div ⟨0, gamma_minus * sinKL⟩ D
  let term2 := mul ⟨k1 / k_prime, 0⟩ (sub ⟨1, 0⟩ r)
  let onePlusR := add ⟨1, 0⟩ r
  let twoC1 := add onePlusR term2
  let twoC2 := sub onePlusR term2
  { r := r, t := t,
    c1 := ⟨twoC1.re / 2, twoC1.im / 2⟩, c2 := ⟨twoC2.re / 2, twoC2.im / 2⟩,
    k1 := k1, k2 := k_prime, isTunneling := false, transmissionProb := T_prob }

/-- The solver `solveSchrodinger` (`physics.ts` lines 23-124): apply the
degeneracy guard, then bifurcate on `E < V0`. -/
noncomputable def solveSchrodinger (params : SimulationParams) : WaveCoefficients :=
  let E := Epert params.energy params.barrierHeight
  if E < params.barrierHeight then
    tunnelCoefficients E params.barrierHeight params.barrierWidth params.mass
  else
    scatterCoefficients E params.barrierHeight params.barrierWidth params.mass

/-- Region-I spatial wavefunction `e^{i k1 x} + r e^{-i k1 x}`
(`physics.ts` lines 137-143). -/
noncomputable def psiRegion1 (x : ℝ) (coeffs : WaveCoefficients) : Cx :=
  add ⟨Real.cos (coeffs.k1 * x), Real.sin (coeffs.k1 * x)⟩
    (mul coeffs.r ⟨Real.cos (-coeffs.k1 * x), Real.sin (-coeffs.k1 * x)⟩)

/-- Region-II (interior) spatial wavefunction (`physics.ts` lines 144-159):
real exponentials when tunneling, oscillatory otherwise. -/
noncomputable def psiRegion2 (x : ℝ) (coeffs : WaveCoefficients) : Cx :=
  if coeffs.isTunneling then
    add (mul coeffs.c1 ⟨Real.exp (-coeffs.k2 * x), 0⟩)
      (mul coeffs.c2 ⟨Real.exp (coeffs.k2 * x), 0⟩)
  else
    add (mul coeffs.c1 ⟨Real.cos (coeffs.k2 * x), Real.sin (coeffs.k2 * x)⟩)
      (mul coeffs.c2 ⟨Real.cos (-coeffs.k2 * x), Real.sin (-coeffs.k2 * x)⟩)

/-- Region-III spatial wavefunction `t e^{i k1 x}`
(`physics.ts` lines 160-167). -/
noncomputable def psiRegion3 (x : ℝ) (coeffs : WaveCoefficients) : Cx :=
  mul coeffs.t ⟨Real.cos (coeffs.k1 * x), Real.sin (coeffs.k1 * x)⟩

/-- Time-evolution factor `e^{-i E t}` with `omega = E`, `hbar = 1`
(`physics.ts` lines 130-132). -/
noncomputable def timePhase (time : ℝ) (params : SimulationParams) : Cx :=
  ⟨Real.cos (-params.energy * time), Real.sin (-params.energy * time)⟩

/-- The sampler output triple (`physics.ts` line 126 return type). -/
structure WaveSample where
  real : ℝ
  prob : ℝ
  V : ℝ

/-- The sampler `getWaveFunctionAt` (`physics.ts` lines 126-177): select the
spatial piece and local potential by region (the source tests `x < 0`, then
`x >= 0 && x <= L` — the lower bound is implied by the first test failing —
then the final `else`), multiply by the time phase, and return the real part,
the squared modulus, and the potential. -/
noncomputable def getWaveFunctionAt (x time : ℝ) (params : SimulationParams)
    (coeffs : WaveCoefficients) : WaveSample :=
  let psiV : Cx × ℝ :=
    if x < 0 then (psiRegion1 x coeffs, 0)
    else if x ≤ params.barrierWidth then (psiRegion2 x coeffs, params.barrierHeight)
    else (psiRegion3 x coeffs, 0)
  let psiT := mul psiV.1 (timePhase time params)
  { real := psiT.re, prob := psiT.re * psiT.re + psiT.im * psiT.im, V := psiV.2 }

/-! ### Basic lemmas about the complex arithmetic helpers -/

lemma normSq_nonneg (z : Cx) : 0 ≤ normSq z := by
  unfold normSq
  nlinarith [mul_self_nonneg z.re, mul_self_nonneg z.im]

lemma normSq_mul (a b : Cx) : normSq (mul a b) = normSq a * normSq b := by
  simp only [normSq, mul]
  ring

lemma normSq_div (a b : Cx) : normSq (div a b) = normSq a / normSq b := by
  by_cases h : b.re * b.re + b.im * b.im = 0
  · simp [div, normSq, h]
  · simp only [div, normSq, if_neg h]
    field_simp
    ring

lemma mul_one_cx (a : Cx) : mul a ⟨1, 0⟩ = a := by
  ext <;> simp [mul]

/-- Pythagorean identity for circular functions, product form. -/
lemma cos_sin_sum_sq (x : ℝ) : Real.cos x * Real.cos x + Real.sin x * Real.sin x = 1 := by
  have h := Real.sin_sq_add_cos_sq x
  nlinarith [h]

/-- Pythagorean identity for hyperbolic functions, product form. -/
lemma cosh_mul_self (x : ℝ) : Real.cosh x * Real.cosh x = 1 + Real.sinh x * Real.sinh x := by
  have h := Real.cosh_sq x
  nlinarith [h]

/-! ### Core algebraic facts about the two solver branches -/

/-- In the tunneling branch with `0 < E < V0`, `0 < m`: the reflection
probability and the closed-form transmission probability sum to one exactly;
the squared modulus of `t` equals the closed-form probability; and the
probability lies in `(0, 1]`. -/
lemma tunnel_facts (E V0 L m : ℝ) (hE : 0 < E) (hEV : E < V0) (hm : 0 < m) :
    normSq (tunnelCoefficients E V0 L m).r + (tunnelCoefficients E V0 L m).transmissionProb = 1 ∧
    normSq (tunnelCoefficients E V0 L m).t = (tunnelCoefficients E V0 L m).transmissionProb ∧
    0 < (tunnelCoefficients E V0 L m).transmissionProb ∧
    (tunnelCoefficients E V0 L m).transmissionProb ≤ 1 := by
  have hVE : 0 < V0 - E := sub_pos.mpr hEV
  have hA : 0 < 2 * m * E := by positivity
  have hB : 0 < 2 * m * (V0 - E) := by positivity
  simp only [tunnelCoefficients, hbar, div_one]
  set K1 := Real.sqrt (2 * m * E) with hK1def
  set K2 := Real.sqrt (2 * m * (V0 - E)) with hK2def
  have hK1pos : 0 < K1 := Real.sqrt_pos.mpr hA
  have hK2pos : 0 < K2 := Real.sqrt_pos.mpr hB
  have hK1sq : K1 * K1 = 2 * m * E := Real.mul_self_sqrt hA.le
  have hK2sq : K2 * K2 = 2 * m * (V0 - E) := Real.mul_self_sqrt hB.le
  set s := Real.sinh (K2 * L) with hsdef
  set c := Real.cosh (K2 * L) with hcdef
  have hc : c * c = 1 + s * s := cosh_mul_self (K2 * L)
  set g := (K1 * K1 - K2 * K2) / (2 * K1 * K2) with hgdef
  set gp := (K2 * K2 + K1 * K1) / (2 * K1 * K2) with hgpdef
  have hgg : gp * gp = g * g + 1 := by
    rw [hgdef, hgpdef]
    field_simp
    ring
  have hgpsq : gp * gp = V0 * V0 / (4 * E * (V0 - E)) := by
    have hsum : K2 * K2 + K1 * K1 = 2 * m * V0 := by
      rw [hK1sq, hK2sq]; ring
    have hden : (2 * K1 * K2) * (2 * K1 * K2) = 4 * ((2 * m * E) * (2 * m * (V0 - E))) := by
      rw [← hK1sq, ← hK2sq]; ring
    have hden1 : (4:ℝ) * ((2 * m * E) * (2 * m * (V0 - E))) ≠ 0 := by positivity
    have hden2 : (4:ℝ) * E * (V0 - E) ≠ 0 := by positivity
    rw [hgpdef, div_mul_div_comm, hsum, hden]
    rw [div_eq_div_iff hden1 hden2]
    ring
  have hterm : V0 * V0 * s ^ 2 / (4 * E * (V0 - E)) = gp * gp * (s * s) := by
    rw [hgpsq]; ring
  have hX0 : 0 ≤ gp * gp * (s * s) := mul_nonneg (mul_self_nonneg gp) (mul_self_nonneg s)
  have h1X : (0:ℝ) < 1 + gp * gp * (s * s) := by linarith
  have hD : normSq (⟨c, -g * s⟩ : Cx) = 1 + gp * gp * (s * s) := by
    simp only [normSq]
    linear_combination hc - (s * s) * hgg
  refine ⟨?_, ?_, ?_, ?_⟩
  · rw [normSq_div, hterm, hD]
    simp only [normSq]
    field_simp
    ring
  · rw [normSq_div, hterm, hD]
    have hnum1 : normSq (⟨Real.cos (-K1 * L), Real.sin (-K1 * L)⟩ : Cx) = 1 := by
      simp only [normSq]
      exact cos_sin_sum_sq _
    rw [hnum1]
  · rw [hterm]
    positivity
  · rw [hterm, div_le_one h1X]
    linarith

/-- In the scattering branch with `0 < E`, `V0 < E`, `0 < m`:
same facts as `tunnel_facts`. -/
lemma scatter_facts (E V0 L m : ℝ) (hE : 0 < E) (hVE : V0 < E) (hm : 0 < m) :
    normSq (scatterCoefficients E V0 L m).r + (scatterCoefficients E V0 L m).transmissionProb = 1 ∧
    normSq (scatterCoefficients E V0 L m).t = (scatterCoefficients E V0 L m).transmissionProb ∧
    0 < (scatterCoefficients E V0 L m).transmissionProb ∧
    (scatterCoefficients E V0 L m).transmissionProb ≤ 1 := by
  have hEV : 0 < E - V0 := sub_pos.mpr hVE
  have hA : 0 < 2 * m * E := by positivity
  have hB : 0 < 2 * m * (E - V0) := by positivity
  simp only [scatterCoefficients, hbar, div_one]
  set K1 := Real.sqrt (2 * m * E) with hK1def
  set K2 := Real.sqrt (2 * m * (E - V0)) with hK2def
  have hK1pos : 0 < K1 := Real.sqrt_pos.mpr hA
  have hK2pos : 0 < K2 := Real.sqrt_pos.mpr hB
  have hK1sq : K1 * K1 = 2 * m * E := Real.mul_self_sqrt hA.le
  have hK2sq : K2 * K2 = 2 * m * (E - V0) := Real.mul_self_sqrt hB.le
  rw [if_neg hK2pos.ne']
  set s := Real.sin (K2 * L) with hsdef
  set c := Real.cos (K2 * L) with hcdef
  have hc : c * c + s * s = 1 := by
    have h := Real.sin_sq_add_cos_sq (K2 * L)
    nlinarith [h]
  set g := (K1 * K1 + K2 * K2) / (2 * K1 * K2) with hgdef
  set gm := (K1 * K1 - K2 * K2) / (2 * K1 * K2) with hgmdef
  have hgg : g * g = gm * gm + 1 := by
    rw [hgdef, hgmdef]
    field_simp
    ring
  have hgmsq : gm * gm = V0 * V0 / (4 * E * (E - V0)) := by
    have hsum : K1 * K1 - K2 * K2 = 2 * m * V0 := by
      rw [hK1sq, hK2sq]; ring
    have hden : (2 * K1 * K2) * (2 * K1 * K2) = 4 * ((2 * m * E) * (2 * m * (E - V0))) := by
      rw [← hK1sq, ← hK2sq]; ring
    have hden1 : (4:ℝ) * ((2 * m * E) * (2 * m * (E - V0))) ≠ 0 := by positivity
    have hden2 : (4:ℝ) * E * (E - V0) ≠ 0 := by positivity
    rw [hgmdef, div_mul_div_comm, hsum, hden]
    rw [div_eq_div_iff hden1 hden2]
    ring
  have hterm : V0 * V0 * s ^ 2 / (4 * E * (E - V0)) = gm * gm * (s * s) := by
    rw [hgmsq]; ring
  have hX0 : 0 ≤ gm * gm * (s * s) := mul_nonneg (mul_self_nonneg gm) (mul_self_nonneg s)
  have h1X : (0:ℝ) < 1 + gm * gm * (s * s) := by linarith
  have hD : normSq (⟨c, -g * s⟩ : Cx) = 1 + gm * gm * (s * s) := by
    simp only [normSq]
    linear_combination hc + (s * s) * hgg
  refine ⟨?_, ?_, ?_, ?_⟩
  · rw [normSq_div, hterm, hD]
    simp only [normSq]
    field_simp
    ring
  · rw [normSq_div, hterm, hD]
    have hnum1 : normSq (⟨Real.cos (-K1 * L), Real.sin (-K1 * L)⟩ : Cx) = 1 := by
      simp only [normSq]
      exact cos_sin_sum_sq _
    rw [hnum1]
  · rw [hterm]
    positivity
  · rw [hterm, div_le_one h1X]
    linarith

/-! ### The degeneracy guard and branch dispatch -/

lemma Epert_pos (E V0 : ℝ) (hE : 0 < E) : 0 < Epert E V0 := by
  unfold Epert
  split_ifs with h
  · norm_num
    linarith
  · exact hE

/-- The post-guard energy never equals the barrier height: either the guard
fired (pushing the energy at least `9e-4` above `V0`), or the original gap
was at least `1e-4`. -/
lemma Epert_ne (E V0 : ℝ) : Epert E V0 ≠ V0 := by
  unfold Epert
  split_ifs with h
  · have h1 := (abs_lt.mp h).1
    intro hc
    have h2 : E - V0 = -(1e-3) := by linarith
    rw [h2] at h1
    norm_num at h1
  · intro hc
    apply h
    rw [hc, sub_self, abs_zero]
    norm_num

lemma solveSchrodinger_tunnel (p : SimulationParams)
    (h : Epert p.energy p.barrierHeight < p.barrierHeight) :
    solveSchrodinger p =
      tunnelCoefficients (Epert p.energy p.barrierHeight) p.barrierHeight
        p.barrierWidth p.mass := by
  simp only [solveSchrodinger, if_pos h]

lemma solveSchrodinger_scatter (p : SimulationParams)
    (h : ¬ Epert p.energy p.barrierHeight < p.barrierHeight) :
    solveSchrodinger p =
      scatterCoefficients (Epert p.energy p.barrierHeight) p.barrierHeight
        p.barrierWidth p.mass := by
  simp only [solveSchrodinger, if_neg h]

/-- Branch-independent package: probability conservation, amplitude/probability
agreement, and the unit-interval bound, for any parameters with positive
energy and mass. -/
lemma solve_facts (p : SimulationParams) (hE : 0 < p.energy) (hm : 0 < p.mass) :
    normSq (solveSchrodinger p).r + (solveSchrodinger p).transmissionProb = 1 ∧
    normSq (solveSchrodinger p).t = (solveSchrodinger p).transmissionProb ∧
    0 < (solveSchrodinger p).transmissionProb ∧
    (solveSchrodinger p).transmissionProb ≤ 1 := by
  have hE' : 0 < Epert p.energy p.barrierHeight := Epert_pos _ _ hE
  by_cases h : Epert p.energy p.barrierHeight < p.barrierHeight
  · rw [solveSchrodinger_tunnel p h]
    exact tunnel_facts _ _ _ _ hE' h hm
  · rw [solveSchrodinger_scatter p h]
    have hlt : p.barrierHeight < Epert p.energy p.barrierHeight :=
      lt_of_le_of_ne (not_lt.mp h) (Epert_ne _ _).symm
    exact scatter_facts _ _ _ _ hE' hlt hm

/-! ### Claims -/

/-- C1: for every parameter set with `E > 0`, `V0 ≥ 0`, `L > 0`, `m > 0`, the
coefficients returned by `solveSchrodinger` satisfy
`|r|^2 + transmissionProb = 1` within `1e-6` absolute tolerance (here the
identity is in fact exact over the reals). -/
theorem C1_reflection_plus_transmission (p : SimulationParams)
    (hE : 0 < p.energy) (hV : 0 ≤ p.barrierHeight)
    (hL : 0 < p.barrierWidth) (hm : 0 < p.mass) :
    |normSq (solveSchrodinger p).r + (solveSchrodinger p).transmissionProb - 1| < 1e-6 := by
  rw [(solve_facts p hE hm).1, sub_self, abs_zero]
  norm_num

theorem C1_reflection_plus_transmission_witness :
    (0:ℝ) < 4.5 ∧ (0:ℝ) ≤ 6 ∧ (0:ℝ) < 1.2 ∧ (0:ℝ) < 1 ∧
    |normSq (solveSchrodinger ⟨4.5, 6, 1.2, 1⟩).r +
      (solveSchrodinger ⟨4.5, 6, 1.2, 1⟩).transmissionProb - 1| < 1e-6 :=
  ⟨by norm_num, by norm_num, by norm_num, by norm_num,
    C1_reflection_plus_transmission ⟨4.5, 6, 1.2, 1⟩
      (by norm_num) (by norm_num) (by norm_num) (by norm_num)⟩

/-- C2: for every parameter set with `E > 0`, `V0 ≥ 0`, `L > 0`, `m > 0`, the
squared modulus of the transmission amplitude `t` agrees with the closed-form
`transmissionProb` within `1e-6` (again exact over the reals). -/
theorem C2_amplitude_matches_probability (p : SimulationParams)
    (hE : 0 < p.energy) (hV : 0 ≤ p.barrierHeight)
    (hL : 0 < p.barrierWidth) (hm : 0 < p.mass) :
    |normSq (solveSchrodinger p).t - (solveSchrodinger p).transmissionProb| < 1e-6 := by
  rw [(solve_facts p hE hm).2.1, sub_self, abs_zero]
  norm_num

theorem C2_amplitude_matches_probability_witness :
    (0:ℝ) < 7 ∧ (0:ℝ) ≤ 5 ∧ (0:ℝ) < 1.5 ∧ (0:ℝ) < 1 ∧
    |normSq (solveSchrodinger ⟨7, 5, 1.5, 1⟩).t -
      (solveSchrodinger ⟨7, 5, 1.5, 1⟩).transmissionProb| < 1e-6 :=
  ⟨by norm_num, by norm_num, by norm_num, by norm_num,
    C2_amplitude_matches_probability ⟨7, 5, 1.5, 1⟩
      (by norm_num) (by norm_num) (by norm_num) (by norm_num)⟩

/-- C3: for every parameter set with `E > 0`, `V0 ≥ 0`, `L > 0`, `m > 0`, the
`transmissionProb` returned by `solveSchrodinger` lies in `[0, 1]`. -/
theorem C3_transmission_in_unit_interval (p : SimulationParams)
    (hE : 0 < p.energy) (hV : 0 ≤ p.barrierHeight)
    (hL : 0 < p.barrierWidth) (hm : 0 < p.mass) :
    0 ≤ (solveSchrodinger p).transmissionProb ∧
    (solveSchrodinger p).transmissionProb ≤ 1 :=
  ⟨(solve_facts p hE hm).2.2.1.le, (solve_facts p hE hm).2.2.2⟩

theorem C3_transmission_in_unit_interval_witness :
    (0:ℝ) < 4 ∧ (0:ℝ) ≤ 10 ∧ (0:ℝ) < 2 ∧ (0:ℝ) < 1 ∧
    (0 ≤ (solveSchrodinger ⟨4, 10, 2, 1⟩).transmissionProb ∧
      (solveSchrodinger ⟨4, 10, 2, 1⟩).transmissionProb ≤ 1) :=
  ⟨by norm_num, by norm_num, by norm_num, by norm_num,
    C3_transmission_in_unit_interval ⟨4, 10, 2, 1⟩
      (by norm_num) (by norm_num) (by norm_num) (by norm_num)⟩

/-- C5: if `|E - V0| < 1e-4` then `solveSchrodinger` perturbs the energy by
the fixed offset `1e-3` before evaluating any formula, so its output equals
the output for energy `E + 1e-3`, on which no further perturbation occurs. -/
theorem C5_guard_shifts_energy (E V0 L m : ℝ) (h : |E - V0| < 1e-4) :
    ¬ |E + 1e-3 - V0| < 1e-4 ∧
    solveSchrodinger ⟨E, V0, L, m⟩ = solveSchrodinger ⟨E + 1e-3, V0, L, m⟩ := by
  have habs := abs_lt.mp h
  have hno : ¬ |E + 1e-3 - V0| < 1e-4 := by
    intro hcon
    have h2 := (abs_lt.mp hcon).2
    have h1 := habs.1
    norm_num at h1 h2
    linarith
  refine ⟨hno, ?_⟩
  have e1 : Epert E V0 = E + 1e-3 := by
    unfold Epert
    rw [if_pos h]
  have e2 : Epert (E + 1e-3) V0 = E + 1e-3 := by
    unfold Epert
    rw [if_neg hno]
  simp only [solveSchrodinger, e1, e2]

theorem C5_guard_shifts_energy_witness :
    |(1:ℝ) - 1.00005| < 1e-4 ∧
    (¬ |(1:ℝ) + 1e-3 - 1.00005| < 1e-4 ∧
      solveSchrodinger ⟨1, 1.00005, 1, 1⟩ = solveSchrodinger ⟨1 + 1e-3, 1.00005, 1, 1⟩) :=
  ⟨by rw [abs_lt]; norm_num, C5_guard_shifts_energy 1 1.00005 1 1 (by rw [abs_lt]; norm_num)⟩

/-- C6: the `isTunneling` flag returned by `solveSchrodinger` is `true`
exactly when the post-perturbation energy is below the barrier height. -/
theorem C6_branch_matches_sign (p : SimulationParams)
    (hE : 0 < p.energy) (hV : 0 ≤ p.barrierHeight)
    (hL : 0 < p.barrierWidth) (hm : 0 < p.mass) :
    ((solveSchrodinger p).isTunneling = true ↔
      Epert p.energy p.barrierHeight < p.barrierHeight) := by
  by_cases h : Epert p.energy p.barrierHeight < p.barrierHeight
  · rw [solveSchrodinger_tunnel p h]
    simp only [tunnelCoefficients]
    simp [h]
  · rw [solveSchrodinger_scatter p h]
    simp only [scatterCoefficients]
    simp [h]

theorem C6_branch_matches_sign_witness :
    (0:ℝ) < 2 ∧ (0:ℝ) ≤ 3 ∧ (0:ℝ) < 1 ∧ (0:ℝ) < 1 ∧
    ((solveSchrodinger ⟨2, 3, 1, 1⟩).isTunneling = true ↔ Epert 2 3 < 3) :=
  ⟨by norm_num, by norm_num, by norm_num, by norm_num,
    C6_branch_matches_sign ⟨2, 3, 1, 1⟩
      (by norm_num) (by norm_num) (by norm_num) (by norm_num)⟩

/-- C7: complex division is total — a zero-modulus denominator yields the zero
sentinel, and a nonzero-modulus denominator yields the exact quotient
(multiplying back by the denominator recovers the numerator). -/
theorem C7_div_total (a b : Cx) :
    (normSq b = 0 → div a b = ⟨0, 0⟩) ∧
    (normSq b ≠ 0 → mul (div a b) b = a) := by
  constructor
  · intro h
    unfold normSq at h
    simp [div, h]
  · intro h
    unfold normSq at h
    simp only [div, if_neg h]
    ext <;> simp only [mul] <;> field_simp <;> ring


theorem C7_div_total_witness :
    div ⟨1, 2⟩ ⟨0, 0⟩ = (⟨0, 0⟩ : Cx) ∧ mul (div ⟨1, 2⟩ ⟨3, 4⟩) ⟨3, 4⟩ = (⟨1, 2⟩ : Cx) :=
  ⟨(C7_div_total ⟨1, 2⟩ ⟨0, 0⟩).1 (by norm_num [normSq]),
    (C7_div_total ⟨1, 2⟩ ⟨3, 4⟩).2 (by norm_num [normSq])⟩

/-- C10: the `prob` output of `getWaveFunctionAt` does not depend on the time
argument: the time-evolution factor has unit modulus, so the squared modulus
of the wavefunction is unchanged by it. -/
theorem C10_prob_time_independent (x t1 t2 : ℝ) (params : SimulationParams)
    (coeffs : WaveCoefficients) :
    (getWaveFunctionAt x t1 params coeffs).prob =
    (getWaveFunctionAt x t2 params coeffs).prob := by
  have key : ∀ (z : Cx) (tt : ℝ),
      (mul z (timePhase tt params)).re * (mul z (timePhase tt params)).re +
        (mul z (timePhase tt params)).im * (mul z (timePhase tt params)).im = normSq z := by
    intro z tt
    have h := cos_sin_sum_sq (-params.energy * tt)
    simp only [mul, timePhase, normSq]
    linear_combination (z.re * z.re + z.im * z.im) * h
  simp only [getWaveFunctionAt]
  rw [key, key]

/-! ### The sampler on the left region -/

lemma timePhase_zero (p : SimulationParams) : timePhase 0 p = ⟨1, 0⟩ := by
  unfold timePhase
  rw [mul_zero, Real.cos_zero, Real.sin_zero]

lemma getWave_left (x time : ℝ) (p : SimulationParams) (w : WaveCoefficients)
    (hx : x < 0) :
    (getWaveFunctionAt x time p w).prob =
      normSq (mul (psiRegion1 x w) (timePhase time p)) := by
  simp only [getWaveFunctionAt, if_pos hx]
  rfl

/-- Interference identity for region I: the squared modulus of the
incident-plus-reflected superposition at `x` equals the squared modulus of
`1 + r e^{-2 i k1 x}` (factoring out the unit-modulus incident phase). -/
lemma normSq_psiRegion1 (x : ℝ) (w : WaveCoefficients) :
    normSq (psiRegion1 x w) =
      normSq (add ⟨1, 0⟩ (mul w.r
        ⟨Real.cos (-(2 * w.k1 * x)), Real.sin (-(2 * w.k1 * x))⟩)) := by
  have h1 : -w.k1 * x = -(w.k1 * x) := by ring
  have h2 : -(2 * w.k1 * x) = -(w.k1 * x + w.k1 * x) := by ring
  simp only [psiRegion1, add, mul, normSq, h1, h2, Real.cos_neg, Real.sin_neg,
    Real.cos_add, Real.sin_add]
  have h := cos_sin_sum_sq (w.k1 * x)
  linear_combination (1 - (w.r.re * w.r.re + w.r.im * w.r.im) *
    (Real.cos (w.k1 * x) * Real.cos (w.k1 * x) +
      Real.sin (w.k1 * x) * Real.sin (w.k1 * x))) * h

/-- C9 amended: at `x = -3`, `t = 0` the `prob` output of `getWaveFunctionAt`
equals `|1 + r e^{6 i k1}|^2` — the interference of the incident and reflected
waves at that point — rather than `|1 + r|^2`, for every parameter set. -/
theorem C9_left_probability_interference (p : SimulationParams) :
    (getWaveFunctionAt (-3) 0 p (solveSchrodinger p)).prob =
      normSq (add ⟨1, 0⟩ (mul (solveSchrodinger p).r
        ⟨Real.cos (6 * (solveSchrodinger p).k1),
          Real.sin (6 * (solveSchrodinger p).k1)⟩)) := by
  rw [getWave_left _ _ _ _ (by norm_num : (-3:ℝ) < 0), timePhase_zero, mul_one_cx,
    normSq_psiRegion1]
  rw [show -(2 * (solveSchrodinger p).k1 * (-3)) = 6 * (solveSchrodinger p).k1 by ring]

/-! ### Concrete evaluation helpers -/

lemma div_real_denom (a : Cx) (c : ℝ) (hc : c ≠ 0) :
    div a ⟨c, 0⟩ = ⟨a.re / c, a.im / c⟩ := by
  have hden : c * c + 0 * 0 ≠ 0 := by simpa using mul_ne_zero hc hc
  simp only [div]
  rw [if_neg hden]
  ext
  · rw [show a.re * c + a.im * 0 = a.re * c by ring, show c * c + 0 * 0 = c * c by ring]
    exact mul_div_mul_right _ _ hc
  · rw [show a.im * c - a.re * 0 = a.im * c by ring, show c * c + 0 * 0 = c * c by ring]
    exact mul_div_mul_right _ _ hc

lemma solveSchrodinger_mk (E V0 L m : ℝ) :
    solveSchrodinger ⟨E, V0, L, m⟩ =
      if Epert E V0 < V0 then tunnelCoefficients (Epert E V0) V0 L m
      else scatterCoefficients (Epert E V0) V0 L m := rfl

/-- C9 counterexample: at `E = pi^2/16`, `V0 = pi^2/8`, `L = 1`, `m = 1/2`
(so `k1 = kappa = pi/4` and `r = i tanh(pi/4)`), the `prob` returned by
`getWaveFunctionAt` at `x = -3`, `t = 0` exceeds `|1 + r|^2` by more than 1,
refuting `probability ≈ |1 + r|^2`. -/
theorem C9_left_probability_counterexample :
    1 < (getWaveFunctionAt (-3) 0 ⟨Real.pi ^ 2 / 16, Real.pi ^ 2 / 8, 1, 1 / 2⟩
        (solveSchrodinger ⟨Real.pi ^ 2 / 16, Real.pi ^ 2 / 8, 1, 1 / 2⟩)).prob -
      normSq (add ⟨1, 0⟩
        (solveSchrodinger ⟨Real.pi ^ 2 / 16, Real.pi ^ 2 / 8, 1, 1 / 2⟩).r) := by
  have hP3 : (3:ℝ) < Real.pi := Real.pi_gt_three
  have hPpos : (0:ℝ) < Real.pi := Real.pi_pos
  have hPsq : (0:ℝ) < Real.pi ^ 2 := pow_pos hPpos 2
  have hguard : ¬ |Real.pi ^ 2 / 16 - Real.pi ^ 2 / 8| < 1e-4 := by
    rw [show Real.pi ^ 2 / 16 - Real.pi ^ 2 / 8 = -(Real.pi ^ 2 / 16) by ring,
      abs_neg, abs_of_pos (by positivity), not_lt]
    nlinarith
  have hEp : Epert (Real.pi ^ 2 / 16) (Real.pi ^ 2 / 8) = Real.pi ^ 2 / 16 := by
    unfold Epert
    rw [if_neg hguard]
  have hsolve : solveSchrodinger ⟨Real.pi ^ 2 / 16, Real.pi ^ 2 / 8, 1, 1 / 2⟩ =
      tunnelCoefficients (Real.pi ^ 2 / 16) (Real.pi ^ 2 / 8) 1 (1 / 2) := by
    rw [solveSchrodinger_mk, hEp, if_pos (by nlinarith : Real.pi ^ 2 / 16 < Real.pi ^ 2 / 8)]
  have hsq1 : Real.sqrt (2 * (1 / 2) * (Real.pi ^ 2 / 16)) = Real.pi / 4 := by
    rw [show 2 * (1 / 2 : ℝ) * (Real.pi ^ 2 / 16) = (Real.pi / 4) ^ 2 by ring]
    exact Real.sqrt_sq (by positivity)
  have hsq2 : Real.sqrt (2 * (1 / 2) * (Real.pi ^ 2 / 8 - Real.pi ^ 2 / 16)) = Real.pi / 4 := by
    rw [show 2 * (1 / 2 : ℝ) * (Real.pi ^ 2 / 8 - Real.pi ^ 2 / 16) = (Real.pi / 4) ^ 2 by ring]
    exact Real.sqrt_sq (by positivity)
  have hk1 : (tunnelCoefficients (Real.pi ^ 2 / 16) (Real.pi ^ 2 / 8) 1 (1 / 2)).k1 =
      Real.pi / 4 := by
    simp only [tunnelCoefficients, hbar, div_one]
    exact hsq1
  have hcoshpos : 0 < Real.cosh (Real.pi / 4) := Real.cosh_pos _
  have hr : (tunnelCoefficients (Real.pi ^ 2 / 16) (Real.pi ^ 2 / 8) 1 (1 / 2)).r =
      ⟨0, Real.sinh (Real.pi / 4) / Real.cosh (Real.pi / 4)⟩ := by
    simp only [tunnelCoefficients, hbar, div_one]
    rw [hsq1, hsq2, mul_one]
    rw [show (Real.pi / 4 * (Real.pi / 4) - Real.pi / 4 * (Real.pi / 4)) /
        (2 * (Real.pi / 4) * (Real.pi / 4)) = 0 by rw [sub_self, zero_div]]
    rw [show (Real.pi / 4 * (Real.pi / 4) + Real.pi / 4 * (Real.pi / 4)) /
        (2 * (Real.pi / 4) * (Real.pi / 4)) = 1 by
      have hπ : Real.pi ≠ 0 := Real.pi_ne_zero
      field_simp
      ring]
    rw [neg_zero, zero_mul, one_mul, div_real_denom _ _ hcoshpos.ne']
    ext <;> simp
  have hτ : 1 / 2 < Real.sinh (Real.pi / 4) / Real.cosh (Real.pi / 4) := by
    rw [lt_div_iff hcoshpos, Real.cosh_eq, Real.sinh_eq]
    have hu : 7 / 4 < Real.exp (Real.pi / 4) := by
      have h1 := Real.add_one_le_exp (Real.pi / 4)
      nlinarith
    have hupos : 0 < Real.exp (Real.pi / 4) := Real.exp_pos _
    have hvpos : 0 < Real.exp (-(Real.pi / 4)) := Real.exp_pos _
    have huv : Real.exp (Real.pi / 4) * Real.exp (-(Real.pi / 4)) = 1 := by
      rw [← Real.exp_add, show Real.pi / 4 + -(Real.pi / 4) = 0 by ring, Real.exp_zero]
    nlinarith [hu, hupos, hvpos, huv]
  rw [hsolve, getWave_left _ _ _ _ (by norm_num : (-3:ℝ) < 0), timePhase_zero, mul_one_cx,
    normSq_psiRegion1, hk1, hr]
  rw [show -(2 * (Real.pi / 4) * (-3)) = Real.pi + Real.pi / 2 by ring]
  rw [Real.cos_add, Real.sin_add, Real.cos_pi, Real.sin_pi,
    Real.cos_pi_div_two, Real.sin_pi_div_two]
  simp only [add, mul, normSq]
  nlinarith [hτ]

/-- C4 (code bug): at `E = 1`, `V0 = 2`, `L = ln 2`, `m = 1/2` (so
`k1 = kappa = 1`, `sinh(kappa L) = 3/4`, `cosh(kappa L) = 5/4`) and time
`t = 0`, the wavefunction assembled from the solver coefficients is
discontinuous at the `x = L` interface: the interior (region-II) value at `L`
is `(17 + 15i)/10` while the region-III value at `L` is `4/5`, a gap of
modulus `sqrt 3.06 > 1`, far above the specified `1e-6`.  (With the sign of
the reflection amplitude `r` negated, all four matching conditions — and
hence continuity at both interfaces — would hold exactly.) -/
theorem C4_discontinuity_at_right_interface :
    1 < modulus (sub
      (mul (psiRegion2 (Real.log 2) (solveSchrodinger ⟨1, 2, Real.log 2, 1 / 2⟩))
        (timePhase 0 ⟨1, 2, Real.log 2, 1 / 2⟩))
      (mul (psiRegion3 (Real.log 2) (solveSchrodinger ⟨1, 2, Real.log 2, 1 / 2⟩))
        (timePhase 0 ⟨1, 2, Real.log 2, 1 / 2⟩))) := by
  have hguard : ¬ |(1:ℝ) - 2| < 1e-4 := by
    rw [show (1:ℝ) - 2 = -1 by norm_num, abs_neg, abs_one]
    norm_num
  have hEp : Epert 1 2 = 1 := by
    unfold Epert
    rw [if_neg hguard]
  have hsolve : solveSchrodinger ⟨1, 2, Real.log 2, 1 / 2⟩ =
      tunnelCoefficients 1 2 (Real.log 2) (1 / 2) := by
    rw [solveSchrodinger_mk, hEp, if_pos (by norm_num : (1:ℝ) < 2)]
  have hsq1 : Real.sqrt (2 * (1 / 2) * 1) = 1 := by
    rw [show (2:ℝ) * (1 / 2) * 1 = 1 by norm_num, Real.sqrt_one]
  have hsq2 : Real.sqrt (2 * (1 / 2) * (2 - 1)) = 1 := by
    rw [show (2:ℝ) * (1 / 2) * (2 - 1) = 1 by norm_num, Real.sqrt_one]
  have hs : Real.sinh (Real.log 2) = 3 / 4 := by
    rw [Real.sinh_eq, Real.exp_neg, Real.exp_log (by norm_num : (0:ℝ) < 2)]
    norm_num
  have hch : Real.cosh (Real.log 2) = 5 / 4 := by
    rw [Real.cosh_eq, Real.exp_neg, Real.exp_log (by norm_num : (0:ℝ) < 2)]
    norm_num
  have h54 : (5 / 4 : ℝ) ≠ 0 := by norm_num
  have hk1v : (tunnelCoefficients 1 2 (Real.log 2) (1 / 2)).k1 = 1 := by
    simp only [tunnelCoefficients, hbar, div_one]
    exact hsq1
  have hk2v : (tunnelCoefficients 1 2 (Real.log 2) (1 / 2)).k2 = 1 := by
    simp only [tunnelCoefficients, hbar, div_one]
    exact hsq2
  have htunv : (tunnelCoefficients 1 2 (Real.log 2) (1 / 2)).isTunneling = true := by
    simp only [tunnelCoefficients]
  have hrv : (tunnelCoefficients 1 2 (Real.log 2) (1 / 2)).r = ⟨0, 3 / 5⟩ := by
    simp only [tunnelCoefficients, hbar, div_one]
    rw [hsq1, hsq2, show (1:ℝ) * Real.log 2 = Real.log 2 by ring]
    rw [show ((1:ℝ) * 1 - 1 * 1) / (2 * 1 * 1) = 0 by norm_num]
    rw [show ((1:ℝ) * 1 + 1 * 1) / (2 * 1 * 1) = 1 by norm_num]
    rw [hs, hch, neg_zero, zero_mul, show (1:ℝ) * (3 / 4) = 3 / 4 by norm_num]
    rw [div_real_denom _ _ h54]
    ext <;> norm_num
  have htv : (tunnelCoefficients 1 2 (Real.log 2) (1 / 2)).t =
      ⟨Real.cos (Real.log 2) / (5 / 4), -Real.sin (Real.log 2) / (5 / 4)⟩ := by
    simp only [tunnelCoefficients, hbar, div_one]
    rw [hsq1, hsq2, show (1:ℝ) * Real.log 2 = Real.log 2 by ring]
    rw [show ((1:ℝ) * 1 - 1 * 1) / (2 * 1 * 1) = 0 by norm_num]
    rw [hch, neg_zero, zero_mul]
    rw [show (-1:ℝ) * Real.log 2 = -Real.log 2 by ring, Real.cos_neg, Real.sin_neg]
    rw [div_real_denom _ _ h54]
  have hc1v : (tunnelCoefficients 1 2 (Real.log 2) (1 / 2)).c1 = ⟨1 / 5, -(1 / 5)⟩ := by
    simp only [tunnelCoefficients, hbar, div_one]
    rw [hsq1, hsq2, show (1:ℝ) * Real.log 2 = Real.log 2 by ring]
    rw [show ((1:ℝ) * 1 - 1 * 1) / (2 * 1 * 1) = 0 by norm_num]
    rw [show ((1:ℝ) * 1 + 1 * 1) / (2 * 1 * 1) = 1 by norm_num]
    rw [hs, hch, neg_zero, zero_mul, show (1:ℝ) * (3 / 4) = 3 / 4 by norm_num]
    rw [div_real_denom _ _ h54]
    ext <;> norm_num [add, sub, mul]
  have hc2v : (tunnelCoefficients 1 2 (Real.log 2) (1 / 2)).c2 = ⟨4 / 5, 4 / 5⟩ := by
    simp only [tunnelCoefficients, hbar, div_one]
    rw [hsq1, hsq2, show (1:ℝ) * Real.log 2 = Real.log 2 by ring]
    rw [show ((1:ℝ) * 1 - 1 * 1) / (2 * 1 * 1) = 0 by norm_num]
    rw [show ((1:ℝ) * 1 + 1 * 1) / (2 * 1 * 1) = 1 by norm_num]
    rw [hs, hch, neg_zero, zero_mul, show (1:ℝ) * (3 / 4) = 3 / 4 by norm_num]
    rw [div_real_denom _ _ h54]
    ext <;> norm_num [add, sub, mul]
  have hpsi2 : psiRegion2 (Real.log 2) (tunnelCoefficients 1 2 (Real.log 2) (1 / 2)) =
      ⟨17 / 10, 3 / 2⟩ := by
    unfold psiRegion2
    rw [htunv, if_pos rfl, hk2v, hc1v, hc2v]
    rw [show (-1:ℝ) * Real.log 2 = -Real.log 2 by ring,
      show (1:ℝ) * Real.log 2 = Real.log 2 by ring]
    rw [Real.exp_neg, Real.exp_log (by norm_num : (0:ℝ) < 2)]
    ext <;> norm_num [add, mul]
  have hpsi3 : psiRegion3 (Real.log 2) (tunnelCoefficients 1 2 (Real.log 2) (1 / 2)) =
      ⟨4 / 5, 0⟩ := by
    unfold psiRegion3
    rw [hk1v, htv, show (1:ℝ) * Real.log 2 = Real.log 2 by ring]
    have h := cos_sin_sum_sq (Real.log 2)
    ext
    · simp only [mul]
      linear_combination (4 / 5 : ℝ) * h
    · simp only [mul]
      ring
  rw [hsolve, timePhase_zero, mul_one_cx, mul_one_cx, hpsi2, hpsi3]
  rw [show sub ⟨17 / 10, 3 / 2⟩ ⟨4 / 5, 0⟩ = (⟨9 / 10, 3 / 2⟩ : Cx) by
    ext <;> norm_num [sub]]
  unfold modulus normSq
  rw [show (9 / 10 : ℝ) * (9 / 10) + 3 / 2 * (3 / 2) = 306 / 100 by norm_num]
  rw [show (1:ℝ) = Real.sqrt 1 from Real.sqrt_one.symm]
  exact Real.sqrt_lt_sqrt (by norm_num) (by norm_num)

/-- C8: the program's input literal `6.0001` is an IEEE binary64 value,
namely the rational `6755512031046428 / 2^50`; its exact gap to `V0 = 6` is
`112589990684 / 2^50 ≈ 9.9999999999977e-5 < 1e-4`.  At that input (any
`L > 0`, `m > 0`) the degeneracy guard engages — the energy is perturbed to
`E + 1e-3` before any formula is evaluated — and the solver (now in the
scattering branch, `E + 1e-3 > 6`) returns well-defined finite coefficients
satisfying `|r|^2 + transmissionProb = 1` and `transmissionProb ∈ [0, 1]`. -/
theorem C8_guard_engages_float_input (L m : ℝ) (hL : 0 < L) (hm : 0 < m) :
    |(6755512031046428 / 1125899906842624 : ℝ) - 6| < 1e-4 ∧
    Epert (6755512031046428 / 1125899906842624) 6 =
      6755512031046428 / 1125899906842624 + 1e-3 ∧
    normSq (solveSchrodinger ⟨6755512031046428 / 1125899906842624, 6, L, m⟩).r +
      (solveSchrodinger
        ⟨6755512031046428 / 1125899906842624, 6, L, m⟩).transmissionProb = 1 ∧
    0 ≤ (solveSchrodinger
        ⟨6755512031046428 / 1125899906842624, 6, L, m⟩).transmissionProb ∧
    (solveSchrodinger
        ⟨6755512031046428 / 1125899906842624, 6, L, m⟩).transmissionProb ≤ 1 := by
  have hgap : |(6755512031046428 / 1125899906842624 : ℝ) - 6| < 1e-4 := by
    rw [abs_lt]
    norm_num
  have hEp : Epert (6755512031046428 / 1125899906842624) 6 =
      6755512031046428 / 1125899906842624 + 1e-3 := by
    unfold Epert
    rw [if_pos hgap]
  have hsolve : solveSchrodinger ⟨6755512031046428 / 1125899906842624, 6, L, m⟩ =
      scatterCoefficients (6755512031046428 / 1125899906842624 + 1e-3) 6 L m := by
    rw [solveSchrodinger_mk, hEp,
      if_neg (by norm_num : ¬ (6755512031046428 / 1125899906842624 + 1e-3 : ℝ) < 6)]
  have hfacts := scatter_facts (6755512031046428 / 1125899906842624 + 1e-3) 6 L m
    (by norm_num) (by norm_num) hm
  refine ⟨hgap, hEp, ?_, ?_, ?_⟩
  · rw [hsolve]
    exact hfacts.1
  · rw [hsolve]
    exact hfacts.2.2.1.le
  · rw [hsolve]
    exact hfacts.2.2.2

theorem C8_guard_engages_float_input_witness :
    (0:ℝ) < 1 ∧ (0:ℝ) < 1 ∧
    (|(6755512031046428 / 1125899906842624 : ℝ) - 6| < 1e-4 ∧
      Epert (6755512031046428 / 1125899906842624) 6 =
        6755512031046428 / 1125899906842624 + 1e-3 ∧
      normSq (solveSchrodinger ⟨6755512031046428 / 1125899906842624, 6, 1, 1⟩).r +
        (solveSchrodinger
          ⟨6755512031046428 / 1125899906842624, 6, 1, 1⟩).transmissionProb = 1 ∧
      0 ≤ (solveSchrodinger
          ⟨6755512031046428 / 1125899906842624, 6, 1, 1⟩).transmissionProb ∧
      (solveSchrodinger
          ⟨6755512031046428 / 1125899906842624, 6, 1, 1⟩).transmissionProb ≤ 1) :=
  ⟨by norm_num, by norm_num,
    C8_guard_engages_float_input 1 1 (by norm_num) (by norm_num)⟩

end QuantumSim
